import Mathlib

/-!
Shallow embedding of the Doom WAD map decoder and sector point-location
code of doom-parse.py: byte-level decoding of VERTEXES and LINEDEFS
records, the player-start origin scan over decoded Things, sector
polygon reconstruction by greedy segment chaining, the ray-casting
point-in-polygon test, and first-match sector lookup.

Modelling conventions.  A lump byte buffer is a `List Nat` with one
entry per byte (entries are byte values, 0..255).  Python exceptions
(IndexError from list indexing, struct errors from reading past the end
of a buffer) are modelled by `Option`: `none` is a raised exception,
`some` a normal return.  Python list indexing, which accepts negative
indices by wrapping from the end, is modelled by `pyIdx`.  The only
floating-point arithmetic in the source is the x-intercept division of
the point-in-polygon test; it is modelled exactly over `ℚ`.  The
missing-lump check at the top of each reader (a KeyError when the named
lump is absent) is container glue outside these buffer-level functions.
-/

namespace Doom

structure Vertex where
  x : Int
  y : Int
  deriving DecidableEq, Repr

structure Linedef where
  v0 : Int
  v1 : Int
  flags : Int
  special : Int
  tag : Int
  side0 : Int
  side1 : Int
  deriving DecidableEq, Repr

structure Sidedef where
  x_offset : Int
  y_offset : Int
  upper : String
  lower : String
  middle : String
  sector : Int
  deriving DecidableEq, Repr

structure Sector where
  floor_height : Int
  ceiling_height : Int
  floor_texture : String
  ceiling_texture : String
  light_level : Int
  type : Nat
  tag : Nat
  deriving DecidableEq, Repr

structure Thing where
  x_pos : Int
  y_pos : Int
  angle : Nat
  type : Int
  flags : Int
  deriving DecidableEq, Repr

structure Map where
  name : String
  vertices : List Vertex
  linedefs : List Linedef
  sidedefs : List Sidedef
  sectors : List Sector
  things : List Thing
  origin : Vertex
  deriving DecidableEq, Repr

/-- Reinterpretation of a 16-bit word as a signed integer, as done by
the struct format character h. -/
def toSigned16 (n : Nat) : Int :=
  if n % 65536 < 32768 then ((n % 65536 : Nat) : Int)
  else ((n % 65536 : Nat) : Int) - 65536

/-- Read the unsigned 16-bit little-endian word at byte offset `off`;
`none` when the buffer is too short (struct.unpack_from raises). -/
def readU16LE (buf : List Nat) (off : Nat) : Option Nat := do
  let b0 ← buf[off]?
  let b1 ← buf[off + 1]?
  pure (b0 + 256 * b1)

/-- Read the signed 16-bit little-endian integer at byte offset `off`
(struct format h). -/
def readS16LE (buf : List Nat) (off : Nat) : Option Int :=
  (readU16LE buf off).map toSigned16

/-- The record-decoding loop shape shared by the lump readers:
`decodeFrom f i k` runs `f` at record indices `i, i+1, ..., i+k-1`,
collecting the results in order; `none` if any record read raises. -/
def decodeFrom {α : Type} (f : Nat → Option α) : Nat → Nat → Option (List α)
  | _, 0 => some []
  | i, Nat.succ k => do
    let a ← f i
    let rest ← decodeFrom f (i + 1) k
    pure (a :: rest)

/-- One VERTEXES record: two signed 16-bit LE fields at offset 4*i. -/
def vertexRecord (buf : List Nat) (i : Nat) : Option Vertex := do
  let x ← readS16LE buf (4 * i)
  let y ← readS16LE buf (4 * i + 2)
  pure (Vertex.mk x y)

/-- read_vertices of doom-parse.py, on the VERTEXES lump buffer: the
record count is the floor of the buffer length divided by 4. -/
def read_vertices (buf : List Nat) : Option (List Vertex) :=
  decodeFrom (vertexRecord buf) 0 (buf.length / 4)

/-- One LINEDEFS record: seven signed 16-bit LE fields at offset 14*i,
then the sentinel rewrite of side0/side1 (a value equal to 0xFFFF is
replaced by -1; note the unpacked values are already signed). -/
def linedefRecord (buf : List Nat) (i : Nat) : Option Linedef := do
  let v0 ← readS16LE buf (14 * i)
  let v1 ← readS16LE buf (14 * i + 2)
  let flags ← readS16LE buf (14 * i + 4)
  let special ← readS16LE buf (14 * i + 6)
  let tag ← readS16LE buf (14 * i + 8)
  let side0 ← readS16LE buf (14 * i + 10)
  let side1 ← readS16LE buf (14 * i + 12)
  let side0 := if side0 ≠ 0xFFFF then side0 else -1
  let side1 := if side1 ≠ 0xFFFF then side1 else -1
  pure (Linedef.mk v0 v1 flags special tag side0 side1)

/-- read_linedefs of doom-parse.py, on the LINEDEFS lump buffer. -/
def read_linedefs (buf : List Nat) : Option (List Linedef) :=
  decodeFrom (linedefRecord buf) 0 (buf.length / 14)

/-- read_origin of doom-parse.py: scan the decoded Things, overwriting
the origin with the position of every Thing of type 1. -/
def read_origin (things : List Thing) : Vertex :=
  things.foldl (fun origin t => if t.type = 1 then Vertex.mk t.x_pos t.y_pos else origin)
    (Vertex.mk 0 0)

/-- Reference little-endian reading of the i-th vertex record, written
from the spec's byte-layout words: x and y are the signed 16-bit LE
integers at byte offsets 4*i and 4*i+2. -/
def vertexFromBytes (buf : List Nat) (i : Nat) : Vertex :=
  Vertex.mk (toSigned16 (buf.getD (4 * i) 0 + 256 * buf.getD (4 * i + 1) 0))
    (toSigned16 (buf.getD (4 * i + 2) 0 + 256 * buf.getD (4 * i + 3) 0))

/-- A point of a polygon under construction: an (x, y) coordinate pair,
as the source's tuples. -/
abbrev Point := Int × Int

/-- A directed edge segment (start point, end point). -/
abbrev Seg := Point × Point

/-- Python list indexing: a negative index wraps from the end; an index
out of range on either side raises (modelled as `none`). -/
def pyIdx {α : Type} (l : List α) (i : Int) : Option α :=
  if 0 ≤ i then l[i.toNat]?
  else if 0 ≤ i + l.length then l[(i + (l.length : Int)).toNat]?
  else none

/-- The segment one side reference of a linedef contributes: nothing
when the side is the absent sentinel -1 or its sidedef belongs to a
different sector, the directed segment from vertex `v0i` to vertex
`v1i` when the sidedef belongs to the target sector.  Lookups follow
the source's evaluation order and short-circuiting, and raise (`none`)
when an index is out of range. -/
def sideSegs (m : Map) (sector_index : Int) (s v0i v1i : Int) : Option (List Seg) :=
  if s = -1 then pure []
  else do
    let sd ← pyIdx m.sidedefs s
    if sd.sector = sector_index then do
      let v0 ← pyIdx m.vertices v0i
      let v1 ← pyIdx m.vertices v1i
      pure [((v0.x, v0.y), (v1.x, v1.y))]
    else pure []

/-- The segments one linedef contributes to a sector's boundary: the
stored direction v0 → v1 for side0 (front), and the reversed direction
v1 → v0 for side1 (back). -/
def segsOfLinedef (m : Map) (sector_index : Int) (ld : Linedef) : Option (List Seg) := do
  let front ← sideSegs m sector_index ld.side0 ld.v0 ld.v1
  let back ← sideSegs m sector_index ld.side1 ld.v1 ld.v0
  pure (front ++ back)

/-- The segment-gathering loop of compute_sector_polygon, over the
map's linedefs in order. -/
def gatherSegments (m : Map) (sector_index : Int) : List Linedef → Option (List Seg)
  | [] => some []
  | ld :: rest => do
    let s ← segsOfLinedef m sector_index ld
    let others ← gatherSegments m sector_index rest
    pure (s ++ others)

/-- All directed segments bounding `sector_index`. -/
def segmentsFor (m : Map) (sector_index : Int) : Option (List Seg) :=
  gatherSegments m sector_index m.linedefs

/-- One attachment test of the chaining loop, with the source's four
cases in order: the segment's start or end matches the path's last
point (append the other endpoint at the tail) or the path's first point
(insert the other endpoint at the head); `none` when the segment does
not touch either end of the path. -/
def attach (p : List Point) (s : Seg) : Option (List Point) :=
  if p.getLast? = some s.1 then some (p ++ [s.2])
  else if p.getLast? = some s.2 then some (p ++ [s.1])
  else if p.head? = some s.1 then some (s.2 :: p)
  else if p.head? = some s.2 then some (s.1 :: p)
  else none

/-- One pass of the inner for loop: scan the remaining pool in order
for the first attachable segment; on success return the grown path and
the pool with that segment removed, mirroring segments.remove followed
by break.  `none` means a full scan found nothing (changed stays
false). -/
def scanStep (p : List Point) : List Seg → Option (List Point × List Seg)
  | [] => none
  | s :: rest =>
    match attach p s with
    | some p2 => some (p2, rest)
    | none =>
      match scanStep p rest with
      | some (p2, rest2) => some (p2, s :: rest2)
      | none => none

/-- The outer while loop, with explicit fuel: repeat scan passes until
a pass attaches nothing or the pool is exhausted.  Each successful pass
removes exactly one segment, so fuel equal to the pool size makes the
cutoff unreachable (theorem chain_loop_terminates). -/
def chainLoopFuel : Nat → List Point → List Seg → List Point
  | 0, p, _ => p
  | Nat.succ fuel, p, segs =>
    match scanStep p segs with
    | none => p
    | some (p2, segs2) => chainLoopFuel fuel p2 segs2

/-- The chaining loop of compute_sector_polygon at its natural fuel. -/
def chainLoop (p : List Point) (segs : List Seg) : List Point :=
  chainLoopFuel segs.length p segs

/-- Closing step: append the first point as the final point unless it
already equals the last point. -/
def closePoly : List Point → List Point
  | [] => []
  | a :: rest => if (a :: rest).getLast? = some a then a :: rest else (a :: rest) ++ [a]

/-- compute_sector_polygon of doom-parse.py: gather the sector's
directed segments; with no segments report no polygon (inner `none`);
otherwise chain greedily starting from the first segment's endpoints,
close the path, and return it as a list of Vertex values.  The outer
`Option` is a raised IndexError during gathering. -/
def compute_sector_polygon (m : Map) (sector_index : Int) :
    Option (Option (List Vertex)) := do
  let segments ← segmentsFor m sector_index
  match segments with
  | [] => pure none
  | s0 :: rest =>
    let polygon := chainLoop [s0.1, s0.2] rest
    let closed := closePoly polygon
    pure (some (closed.map (fun pt => Vertex.mk pt.1 pt.2)))

/-- The spec's name for the sector polygon builder. -/
abbrev build_sector_polygon := compute_sector_polygon

/-- One edge of the ray-casting loop: vi is polygon[i], vj is
polygon[j] (the previous index).  The crossing guard requires one
endpoint strictly above the query y and the other not; the x-intercept
comparison divides by yj - yi, exactly over `ℚ`. -/
def pipStep (x y : Int) (vi vj : Vertex) (inside : Bool) : Bool :=
  if (decide (vi.y > y) != decide (vj.y > y))
      && decide ((x : ℚ) <
        ((vj.x : ℚ) - (vi.x : ℚ)) * ((y : ℚ) - (vi.y : ℚ)) / ((vj.y : ℚ) - (vi.y : ℚ))
          + (vi.x : ℚ))
  then !inside else inside

/-- point_in_polygon of doom-parse.py: fold the edge test over the
pairs (polygon[i], polygon[j]) with j starting at the last index, so
the wrap-from-last-to-first edge comes first. -/
def point_in_polygon (x y : Int) (polygon : List Vertex) : Bool :=
  match polygon.getLast? with
  | none => false
  | some vlast =>
    (polygon.zip (vlast :: polygon)).foldl
      (fun inside pr => pipStep x y pr.1 pr.2 inside) false

/-- The scan of find_sector_for_point from sector index i, with k
sectors left to try.  The Python truthiness test on the polygon skips
both the no-polygon case and an empty polygon list. -/
def findFrom (m : Map) (x y : Int) : Nat → Nat → Option (Option Nat)
  | _, 0 => some none
  | i, Nat.succ k =>
    match compute_sector_polygon m (i : Int) with
    | none => none
    | some none => findFrom m x y (i + 1) k
    | some (some poly) =>
      if poly.isEmpty then findFrom m x y (i + 1) k
      else if point_in_polygon x y poly then some (some i)
      else findFrom m x y (i + 1) k

/-- find_sector_for_point of doom-parse.py: try every sector index in
increasing order; inner `none` is the not-found result, the outer
`Option` a raised IndexError. -/
def find_sector_for_point (m : Map) (x y : Int) : Option (Option Nat) :=
  findFrom m x y 0 m.sectors.length

/-- The spec's name for the sector lookup. -/
abbrev locate_point := find_sector_for_point

/-- Containment of the query point in the polygon the code builds for
sector index i: the build succeeds with a polygon and the
point-in-polygon test accepts. -/
def containsPt (m : Map) (x y : Int) (i : Nat) : Prop :=
  ∃ p, compute_sector_polygon m (i : Int) = some (some p) ∧ point_in_polygon x y p = true

/-- A side reference that contributes no segment for sector i: either
the absent sentinel, or a sidedef of a different sector. -/
def sideSkips (m : Map) (sector_index : Int) (s : Int) : Bool :=
  s == -1 ||
    match pyIdx m.sidedefs s with
    | some sd => sd.sector != sector_index
    | none => false

/-- The one-square-sector map of the spec's test properties: corners
(0,0), (64,0), (64,64), (0,64), one linedef and front sidedef per side,
all sidedefs in sector 0, player start at (32,32). -/
def demoMap : Map :=
  { name := "E1M1"
    vertices := [Vertex.mk 0 0, Vertex.mk 64 0, Vertex.mk 64 64, Vertex.mk 0 64]
    linedefs :=
      [Linedef.mk 0 1 0 0 0 0 (-1), Linedef.mk 1 2 0 0 0 1 (-1),
       Linedef.mk 2 3 0 0 0 2 (-1), Linedef.mk 3 0 0 0 0 3 (-1)]
    sidedefs :=
      [Sidedef.mk 0 0 "-" "-" "STARTAN3" 0, Sidedef.mk 0 0 "-" "-" "STARTAN3" 0,
       Sidedef.mk 0 0 "-" "-" "STARTAN3" 0, Sidedef.mk 0 0 "-" "-" "STARTAN3" 0]
    sectors := [Sector.mk 0 128 "FLOOR4_8" "CEIL3_5" 160 0 0]
    things := [Thing.mk 32 32 90 1 7]
    origin := Vertex.mk 32 32 }

/-! Helper lemmas about the record-decoding loop and byte reads. -/

theorem getElem?_eq_some_getD {α : Type} :
    ∀ (l : List α) (n : Nat) (d : α), n < l.length → l[n]? = some (l.getD n d)
  | a :: l, 0, _, _ => by simp
  | a :: l, Nat.succ n, d, h => by
    simpa using getElem?_eq_some_getD l n d (Nat.lt_of_succ_lt_succ h)

theorem readU16LE_eq (buf : List Nat) (off : Nat) (h : off + 1 < buf.length) :
    readU16LE buf off = some (buf.getD off 0 + 256 * buf.getD (off + 1) 0) := by
  rw [readU16LE]
  rw [getElem?_eq_some_getD buf off 0 (by omega), getElem?_eq_some_getD buf (off + 1) 0 h]
  rfl

theorem readS16LE_eq (buf : List Nat) (off : Nat) (h : off + 1 < buf.length) :
    readS16LE buf off = some (toSigned16 (buf.getD off 0 + 256 * buf.getD (off + 1) 0)) := by
  rw [readS16LE, readU16LE_eq buf off h]
  rfl

theorem toSigned16_le (n : Nat) : toSigned16 n ≤ 32767 := by
  have h : n % 65536 < 65536 := Nat.mod_lt n (by decide)
  rw [toSigned16]
  split <;> omega

theorem decodeFrom_eq_map {α : Type} (f : Nat → Option α) (g : Nat → α) :
    ∀ (k i : Nat), (∀ j, j < k → f (i + j) = some (g (i + j))) →
      decodeFrom f i k = some ((List.range' i k).map g)
  | 0, i, _ => rfl
  | Nat.succ k, i, h => by
    have h0 : f i = some (g i) := by simpa using h 0 (Nat.succ_pos k)
    have hrest : decodeFrom f (i + 1) k = some ((List.range' (i + 1) k).map g) := by
      refine decodeFrom_eq_map f g k (i + 1) (fun j hj => ?_)
      have := h (j + 1) (Nat.succ_lt_succ hj)
      simpa [Nat.add_assoc, Nat.add_comm 1 j] using this
    simp [decodeFrom, h0, hrest, List.range'_succ]

theorem decodeFrom_getElem? {α : Type} (f : Nat → Option α) :
    ∀ (k i : Nat) (l : List α), decodeFrom f i k = some l →
      ∀ j, j < k → l[j]? = f (i + j)
  | 0, _, _, _, _, hj => absurd hj (Nat.not_lt_zero _)
  | Nat.succ k, i, l, h, j, hj => by
    simp only [decodeFrom] at h
    cases hfi : f i with
    | none => simp [hfi] at h
    | some a =>
      cases hrest : decodeFrom f (i + 1) k with
      | none => simp [hfi, hrest] at h
      | some rest =>
        rw [hfi, hrest] at h
        simp only [Option.bind_eq_bind, Option.some_bind, Option.pure_def,
          Option.some.injEq] at h
        subst h
        cases j with
        | zero => simpa using hfi.symm
        | succ j =>
          have := decodeFrom_getElem? f k (i + 1) rest hrest j (Nat.lt_of_succ_lt_succ hj)
          simpa [Nat.add_assoc, Nat.add_comm 1 j] using this

theorem decodeFrom_length {α : Type} (f : Nat → Option α) :
    ∀ (k i : Nat) (l : List α), decodeFrom f i k = some l → l.length = k
  | 0, _, l, h => by
    simp only [decodeFrom, Option.some.injEq] at h
    simp [← h]
  | Nat.succ k, i, l, h => by
    simp only [decodeFrom] at h
    cases hfi : f i with
    | none => simp [hfi] at h
    | some a =>
      cases hrest : decodeFrom f (i + 1) k with
      | none => simp [hfi, hrest] at h
      | some rest =>
        rw [hfi, hrest] at h
        simp only [Option.bind_eq_bind, Option.some_bind, Option.pure_def,
          Option.some.injEq] at h
        subst h
        simp [decodeFrom_length f k (i + 1) rest hrest]

/-- The vertex decoder on any buffer: it always succeeds and returns
the little-endian reading of each of the floor(length / 4) records. -/
theorem read_vertices_eq (buf : List Nat) :
    read_vertices buf = some ((List.range (buf.length / 4)).map (vertexFromBytes buf)) := by
  rw [read_vertices, List.range_eq_range']
  refine decodeFrom_eq_map _ _ _ _ (fun j hj => ?_)
  simp only [Nat.zero_add] at hj ⊢
  rw [vertexRecord, readS16LE_eq buf (4 * j) (by omega),
    readS16LE_eq buf (4 * j + 2) (by omega)]
  simp only [Option.bind_eq_bind, Option.some_bind, Option.pure_def, Option.some.injEq,
    vertexFromBytes, Nat.add_assoc]

/-- C5: for every VERTEXES buffer whose length L is divisible by 4,
decoding yields exactly L/4 vertices, and the i-th vertex's x and y are
the signed 16-bit little-endian integers at byte offsets 4*i and
4*i+2 (read_vertices equals the reference byte reading vertexFromBytes
at every record index). -/
theorem read_vertices_le_decode (buf : List Nat) (h4 : buf.length % 4 = 0) :
    read_vertices buf = some ((List.range (buf.length / 4)).map (vertexFromBytes buf))
      ∧ ∀ vs, read_vertices buf = some vs → vs.length = buf.length / 4 := by
  refine ⟨read_vertices_eq buf, fun vs hvs => ?_⟩
  rw [read_vertices_eq buf] at hvs
  simp only [Option.some.injEq] at hvs
  simp [← hvs]

theorem read_vertices_le_decode_witness :
    ([0, 1, 255, 255] : List Nat).length % 4 = 0
      ∧ read_vertices [0, 1, 255, 255] =
        some ((List.range (([0, 1, 255, 255] : List Nat).length / 4)).map
          (vertexFromBytes [0, 1, 255, 255])) :=
  ⟨by decide, (read_vertices_le_decode [0, 1, 255, 255] (by decide)).1⟩

/-- C4 counterexample: on a 5-byte VERTEXES buffer (not a multiple of
4) decoding does not fail: it succeeds with one vertex, silently
dropping the trailing byte.  There is no buffer-length error path in
the code at all. -/
theorem vertices_truncation_counterexample :
    read_vertices [0, 0, 0, 0, 0] = some [Vertex.mk 0 0]
      ∧ read_vertices [0, 0, 0, 0, 0] ≠ none := by
  exact ⟨by decide, by decide⟩

/-- C4 amended: for every VERTEXES buffer whose length is not an exact
multiple of 4, decoding succeeds, silently truncating to floor(L/4)
records (legacy behavior); no MalformedLump error is raised. -/
theorem read_vertices_truncates (buf : List Nat) (h4 : buf.length % 4 ≠ 0) :
    read_vertices buf = some ((List.range (buf.length / 4)).map (vertexFromBytes buf))
      ∧ ∀ vs, read_vertices buf = some vs → vs.length = buf.length / 4 := by
  refine ⟨read_vertices_eq buf, fun vs hvs => ?_⟩
  rw [read_vertices_eq buf] at hvs
  simp only [Option.some.injEq] at hvs
  simp [← hvs]

theorem read_vertices_truncates_witness :
    ([0, 0, 0, 0, 0] : List Nat).length % 4 ≠ 0
      ∧ read_vertices [0, 0, 0, 0, 0] =
        some ((List.range (([0, 0, 0, 0, 0] : List Nat).length / 4)).map
          (vertexFromBytes [0, 0, 0, 0, 0])) :=
  ⟨by decide, (read_vertices_truncates [0, 0, 0, 0, 0] (by decide)).1⟩

/-- C3: in every decoded LINEDEFS record, a side0 or side1 field whose
raw unsigned 16-bit value is 0xFFFF decodes to -1, and every other raw
value decodes to its signed 16-bit interpretation unchanged. -/
theorem linedef_side_sentinel (buf : List Nat) (lds : List Linedef) (i : Nat)
    (ld : Linedef) (u0 u1 : Nat)
    (hlds : read_linedefs buf = some lds) (hld : lds[i]? = some ld)
    (hu0 : readU16LE buf (14 * i + 10) = some u0)
    (hu1 : readU16LE buf (14 * i + 12) = some u1) :
    ld.side0 = (if u0 = 0xFFFF then -1 else toSigned16 u0)
      ∧ ld.side1 = (if u1 = 0xFFFF then -1 else toSigned16 u1) := by
  have hilen : i < lds.length := by
    by_contra hge
    rw [List.getElem?_eq_none (Nat.le_of_not_lt hge)] at hld
    exact Option.noConfusion hld
  have hlen : lds.length = buf.length / 14 := decodeFrom_length _ _ _ _ hlds
  have hrec : lds[i]? = linedefRecord buf i := by
    have := decodeFrom_getElem? (linedefRecord buf) (buf.length / 14) 0 lds hlds i
      (by omega)
    simpa using this
  have h : linedefRecord buf i = some ld := by rw [← hrec, hld]
  simp only [linedefRecord, Option.bind_eq_bind, Option.bind_eq_some, Option.pure_def,
    Option.some.injEq] at h
  obtain ⟨v0, hv0, v1, hv1, fl, hfl, sp, hsp, tg, htg, s0, hs0, s1, hs1, hmk⟩ := h
  have hs0v : s0 = toSigned16 u0 := by
    rw [readS16LE, hu0] at hs0
    simpa using hs0.symm
  have hs1v : s1 = toSigned16 u1 := by
    rw [readS16LE, hu1] at hs1
    simpa using hs1.symm
  have hns0 : s0 ≠ 0xFFFF := by
    have := toSigned16_le u0
    omega
  have hns1 : s1 ≠ 0xFFFF := by
    have := toSigned16_le u1
    omega
  subst hmk
  constructor
  · simp only [if_pos hns0]
    by_cases hu : u0 = 0xFFFF
    · subst hu
      rw [hs0v]
      decide
    · rw [if_neg hu, hs0v]
  · simp only [if_pos hns1]
    by_cases hu : u1 = 0xFFFF
    · subst hu
      rw [hs1v]
      decide
    · rw [if_neg hu, hs1v]

theorem linedef_side_sentinel_witness :
    (Linedef.mk 1 2 0 0 0 (-1) 5).side0 = (if (65535 : Nat) = 0xFFFF then -1 else toSigned16 65535)
      ∧ (Linedef.mk 1 2 0 0 0 (-1) 5).side1 = (if (5 : Nat) = 0xFFFF then -1 else toSigned16 5) :=
  linedef_side_sentinel [1, 0, 2, 0, 0, 0, 0, 0, 0, 0, 255, 255, 5, 0]
    [Linedef.mk 1 2 0 0 0 (-1) 5] 0 (Linedef.mk 1 2 0 0 0 (-1) 5) 65535 5
    (by decide) (by decide) (by decide) (by decide)

/-- The origin scan with an arbitrary running value: the fold keeps the
position of the last type-1 Thing, or the starting value if none. -/
theorem foldl_origin (things : List Thing) :
    ∀ init : Vertex,
      things.foldl
        (fun origin t => if t.type = 1 then Vertex.mk t.x_pos t.y_pos else origin) init =
      match (things.filter (fun t => t.type == 1)).getLast? with
      | none => init
      | some t => Vertex.mk t.x_pos t.y_pos := by
  induction things with
  | nil => intro init; rfl
  | cons t ts ih =>
    intro init
    by_cases ht : t.type = 1
    · simp only [List.foldl_cons, if_pos ht, List.filter_cons,
        show (t.type == 1) = true by simpa using ht, ih]
      cases hfl : ts.filter (fun t => t.type == 1) with
      | nil => simp
      | cons b l =>
        obtain ⟨u, hu⟩ : ∃ u, (b :: l).getLast? = some u := by
          simpa [Option.isSome_iff_exists] using
            (List.getLast?_isSome (l := b :: l)).mpr (by simp)
        simp [List.getLast?_cons_cons, hu]
    · simp only [List.foldl_cons, if_neg ht, List.filter_cons,
        show (t.type == 1) = false by simpa using ht, ih]
      simp

/-- C7: the derived origin is (0, 0) when no Thing has type 1, and
otherwise the position of the last Thing in sequence order whose type
is 1 (the overwriting scan makes the last match win). -/
theorem origin_last_type_one (things : List Thing) :
    read_origin things =
      match (things.filter (fun t => t.type == 1)).getLast? with
      | none => Vertex.mk 0 0
      | some t => Vertex.mk t.x_pos t.y_pos := by
  rw [read_origin, foldl_origin]

/-! Helper lemmas about the chaining loop. -/

theorem attach_ne_nil (p : List Point) (s : Seg) (p2 : List Point)
    (h : attach p s = some p2) : p2 ≠ [] := by
  rw [attach] at h
  split_ifs at h <;> (try exact Option.noConfusion h) <;>
    (simp only [Option.some.injEq] at h; simp [← h])

theorem scanStep_ne_nil :
    ∀ (segs : List Seg) (p p2 : List Point) (segs2 : List Seg),
      scanStep p segs = some (p2, segs2) → p2 ≠ []
  | [], _, _, _, h => Option.noConfusion h
  | s :: rest, p, p2, segs2, h => by
    cases ha : attach p s with
    | some q =>
      simp only [scanStep, ha, Option.some.injEq, Prod.mk.injEq] at h
      exact h.1 ▸ attach_ne_nil p s q ha
    | none =>
      cases hs : scanStep p rest with
      | none => simp [scanStep, ha, hs] at h
      | some pr =>
        obtain ⟨q, r2⟩ := pr
        simp only [scanStep, ha, hs, Option.some.injEq, Prod.mk.injEq] at h
        exact h.1 ▸ scanStep_ne_nil rest p q r2 hs

theorem scanStep_length :
    ∀ (segs : List Seg) (p p2 : List Point) (segs2 : List Seg),
      scanStep p segs = some (p2, segs2) → segs2.length + 1 = segs.length
  | [], _, _, _, h => Option.noConfusion h
  | s :: rest, p, p2, segs2, h => by
    cases ha : attach p s with
    | some q =>
      simp only [scanStep, ha, Option.some.injEq, Prod.mk.injEq] at h
      rw [← h.2]
      simp
    | none =>
      cases hs : scanStep p rest with
      | none => simp [scanStep, ha, hs] at h
      | some pr =>
        obtain ⟨q, r2⟩ := pr
        simp only [scanStep, ha, hs, Option.some.injEq, Prod.mk.injEq] at h
        have ih := scanStep_length rest p q r2 hs
        rw [← h.2]
        simp only [List.length_cons]
        omega

theorem chainLoopFuel_ne_nil :
    ∀ (fuel : Nat) (p : List Point) (segs : List Seg), p ≠ [] →
      chainLoopFuel fuel p segs ≠ []
  | 0, _, _, hp => hp
  | Nat.succ fuel, p, segs, hp => by
    rw [chainLoopFuel]
    cases hs : scanStep p segs with
    | none => exact hp
    | some pr =>
      obtain ⟨p2, segs2⟩ := pr
      exact chainLoopFuel_ne_nil fuel p2 segs2 (scanStep_ne_nil segs p p2 segs2 hs)

theorem chainLoopFuel_nil : ∀ (fuel : Nat) (p : List Point), chainLoopFuel fuel p [] = p
  | 0, _ => rfl
  | Nat.succ _, _ => rfl

theorem chainLoopFuel_congr :
    ∀ (f1 f2 : Nat) (p : List Point) (segs : List Seg),
      segs.length ≤ f1 → segs.length ≤ f2 →
      chainLoopFuel f1 p segs = chainLoopFuel f2 p segs
  | 0, f2, p, segs, h1, _ => by
    have hnil : segs = [] := List.length_eq_zero.mp (Nat.le_zero.mp h1)
    subst hnil
    rw [chainLoopFuel_nil, chainLoopFuel_nil]
  | Nat.succ _, 0, p, segs, _, h2 => by
    have hnil : segs = [] := List.length_eq_zero.mp (Nat.le_zero.mp h2)
    subst hnil
    rw [chainLoopFuel_nil, chainLoopFuel_nil]
  | Nat.succ f1, Nat.succ f2, p, segs, h1, h2 => by
    rw [chainLoopFuel, chainLoopFuel]
    cases hs : scanStep p segs with
    | none => rfl
    | some pr =>
      obtain ⟨p2, segs2⟩ := pr
      have hlen := scanStep_length segs p p2 segs2 hs
      exact chainLoopFuel_congr f1 f2 p2 segs2 (by omega) (by omega)

theorem closePoly_ne_nil (l : List Point) (h : l ≠ []) : closePoly l ≠ [] := by
  cases l with
  | nil => exact absurd rfl h
  | cons a rest =>
    rw [closePoly]
    split <;> simp

theorem closePoly_closed (l : List Point) (h : l ≠ []) :
    (closePoly l).head? = (closePoly l).getLast? := by
  cases l with
  | nil => exact absurd rfl h
  | cons a rest =>
    by_cases h1 : (a :: rest).getLast? = some a
    · rw [closePoly, if_pos h1]
      simp [h1]
    · rw [closePoly, if_neg h1]
      rw [List.getLast?_concat]
      simp

/-- C2: every polygon compute_sector_polygon returns (rather than no
polygon) is a nonempty closed ring: its first point equals its last
point, the closing step having appended the first point unless it
already matched. -/
theorem sector_polygon_closed (m : Map) (sector_index : Int) (p : List Vertex)
    (h : compute_sector_polygon m sector_index = some (some p)) :
    p ≠ [] ∧ p.head? = p.getLast? := by
  cases hs : segmentsFor m sector_index with
  | none => simp [compute_sector_polygon, hs] at h
  | some segs =>
    cases segs with
    | nil => simp [compute_sector_polygon, hs] at h
    | cons s0 rest =>
      simp only [compute_sector_polygon, hs, Option.bind_eq_bind, Option.some_bind,
        Option.pure_def, Option.some.injEq] at h
      have hchain : chainLoop [s0.1, s0.2] rest ≠ [] := by
        rw [chainLoop]
        exact chainLoopFuel_ne_nil _ _ _ (by simp)
      have hq_ne : closePoly (chainLoop [s0.1, s0.2] rest) ≠ [] :=
        closePoly_ne_nil _ hchain
      have hq_cl : (closePoly (chainLoop [s0.1, s0.2] rest)).head? =
          (closePoly (chainLoop [s0.1, s0.2] rest)).getLast? :=
        closePoly_closed _ hchain
      constructor
      · rw [← h]
        simpa using hq_ne
      · rw [← h, List.head?_map, List.getLast?_map, hq_cl]

theorem sector_polygon_closed_witness :
    ([Vertex.mk 0 0, Vertex.mk 64 0, Vertex.mk 64 64, Vertex.mk 0 64, Vertex.mk 0 0] :
        List Vertex) ≠ []
      ∧ ([Vertex.mk 0 0, Vertex.mk 64 0, Vertex.mk 64 64, Vertex.mk 0 64, Vertex.mk 0 0] :
          List Vertex).head? =
        ([Vertex.mk 0 0, Vertex.mk 64 0, Vertex.mk 64 64, Vertex.mk 0 64, Vertex.mk 0 0] :
          List Vertex).getLast? :=
  sector_polygon_closed demoMap 0
    [Vertex.mk 0 0, Vertex.mk 64 0, Vertex.mk 64 64, Vertex.mk 0 64, Vertex.mk 0 0]
    (by decide)

theorem sideSegs_skip (m : Map) (si : Int) (s v0i v1i : Int)
    (h : sideSkips m si s = true) : sideSegs m si s v0i v1i = some [] := by
  by_cases hs : s = -1
  · simp [sideSegs, hs]
  · cases hp : pyIdx m.sidedefs s with
    | none => simp [sideSkips, hs, hp] at h
    | some sd =>
      simp only [sideSkips, hp, Bool.or_eq_true, beq_iff_eq, bne_iff_ne, ne_eq] at h
      have hne : sd.sector ≠ si := by
        rcases h with h | h
        · exact absurd h hs
        · exact h
      simp [sideSegs, hs, hp, hne]

theorem segsOfLinedef_skip (m : Map) (si : Int) (ld : Linedef)
    (h0 : sideSkips m si ld.side0 = true) (h1 : sideSkips m si ld.side1 = true) :
    segsOfLinedef m si ld = some [] := by
  rw [segsOfLinedef, sideSegs_skip m si ld.side0 ld.v0 ld.v1 h0,
    sideSegs_skip m si ld.side1 ld.v1 ld.v0 h1]
  rfl

theorem gatherSegments_skip (m : Map) (si : Int) :
    ∀ lds : List Linedef,
      (∀ ld ∈ lds, sideSkips m si ld.side0 = true ∧ sideSkips m si ld.side1 = true) →
      gatherSegments m si lds = some []
  | [], _ => rfl
  | ld :: rest, h => by
    have h1 := h ld (List.mem_cons_self ld rest)
    have hld : segsOfLinedef m si ld = some [] := segsOfLinedef_skip m si ld h1.1 h1.2
    have hr : gatherSegments m si rest = some [] :=
      gatherSegments_skip m si rest (fun x hx => h x (List.mem_cons_of_mem ld hx))
    simp [gatherSegments, hld, hr]

/-- C6: for a sector no linedef side references (each side is either
the absent sentinel or a sidedef of another sector), zero segments are
emitted and compute_sector_polygon reports no polygon, as a normal
result (inner none) without raising any error (the outer Option is
some). -/
theorem no_referencing_sidedefs_no_polygon (m : Map) (sector_index : Int)
    (h : ∀ ld ∈ m.linedefs, sideSkips m sector_index ld.side0 = true
        ∧ sideSkips m sector_index ld.side1 = true) :
    compute_sector_polygon m sector_index = some none := by
  have hseg : segmentsFor m sector_index = some [] :=
    gatherSegments_skip m sector_index m.linedefs h
  simp [compute_sector_polygon, hseg]

theorem no_referencing_sidedefs_no_polygon_witness :
    compute_sector_polygon demoMap 1 = some none :=
  no_referencing_sidedefs_no_polygon demoMap 1 (by decide)

/-- C8: the ray-casting edge test evaluates its x-intercept division
only under the crossing guard (one endpoint strictly above the query y,
the other not), which forces yi ≠ yj, so the divisor yj - yi is never
zero; and an edge with yi = yj never toggles the inside flag. -/
theorem pip_guard_no_div_by_zero (x y : Int) (vi vj : Vertex) (inside : Bool) :
    ((decide (vi.y > y) != decide (vj.y > y)) = true → ((vj.y : ℚ) - (vi.y : ℚ)) ≠ 0)
      ∧ (vi.y = vj.y → pipStep x y vi vj inside = inside) := by
  constructor
  · intro hg heq
    have hy : (vj.y : ℚ) = (vi.y : ℚ) := sub_eq_zero.mp heq
    have hyy : vj.y = vi.y := by exact_mod_cast hy
    rw [hyy] at hg
    simp at hg
  · intro hy
    rw [pipStep, hy]
    simp

theorem pip_guard_no_div_by_zero_witness :
    ((((Vertex.mk 0 5).y : ℚ) - ((Vertex.mk 0 0).y : ℚ)) ≠ 0)
      ∧ pipStep 0 7 (Vertex.mk 1 3) (Vertex.mk 2 3) true = true :=
  ⟨(pip_guard_no_div_by_zero 0 1 (Vertex.mk 0 0) (Vertex.mk 0 5) false).1 (by decide),
   (pip_guard_no_div_by_zero 0 7 (Vertex.mk 1 3) (Vertex.mk 2 3) true).2 rfl⟩

/-- C9: building a sector's polygon twice on the same unchanged Map
yields structurally identical output; the embedding of
compute_sector_polygon is a pure function of its arguments, so the two
computations are one and the same value. -/
theorem build_sector_polygon_deterministic (m : Map) (sector_index : Int) :
    build_sector_polygon m sector_index = build_sector_polygon m sector_index := rfl

/-- C10: the greedy chaining loop terminates: every successful scan
pass removes exactly one segment from the finite pool (so the pool
length strictly decreases), and fuel equal to the initial pool size
already reaches the fixed point, making the embedded loop total. -/
theorem chain_loop_terminates (p : List Point) (segs : List Seg) :
    (∀ p2 segs2, scanStep p segs = some (p2, segs2) → segs2.length < segs.length)
      ∧ ∀ fuel, segs.length ≤ fuel → chainLoopFuel fuel p segs = chainLoop p segs := by
  constructor
  · intro p2 segs2 hs
    have := scanStep_length segs p p2 segs2 hs
    omega
  · intro fuel hf
    rw [chainLoop]
    exact chainLoopFuel_congr fuel segs.length p segs hf (Nat.le_refl _)

theorem chain_loop_terminates_witness :
    ([] : List Seg).length < ([(((1 : Int), (0 : Int)), ((2 : Int), (0 : Int)))] : List Seg).length
      ∧ chainLoopFuel 2 [((0 : Int), (0 : Int)), ((1 : Int), (0 : Int))]
          [(((1 : Int), (0 : Int)), ((2 : Int), (0 : Int)))] =
        chainLoop [((0 : Int), (0 : Int)), ((1 : Int), (0 : Int))]
          [(((1 : Int), (0 : Int)), ((2 : Int), (0 : Int)))] :=
  ⟨(chain_loop_terminates [((0 : Int), (0 : Int)), ((1 : Int), (0 : Int))]
      [(((1 : Int), (0 : Int)), ((2 : Int), (0 : Int)))]).1
      [((0 : Int), (0 : Int)), ((1 : Int), (0 : Int)), ((2 : Int), (0 : Int))] [] (by decide),
   (chain_loop_terminates [((0 : Int), (0 : Int)), ((1 : Int), (0 : Int))]
      [(((1 : Int), (0 : Int)), ((2 : Int), (0 : Int)))]).2 2 (by decide)⟩

/-! Helper lemmas for the sector lookup. -/

theorem not_containsPt_none (m : Map) (x y : Int) (i : Nat)
    (hc : compute_sector_polygon m (i : Int) = some none) : ¬ containsPt m x y i := by
  rintro ⟨p, hp, _⟩
  rw [hc] at hp
  simp at hp

theorem not_containsPt_false (m : Map) (x y : Int) (i : Nat) (poly : List Vertex)
    (hc : compute_sector_polygon m (i : Int) = some (some poly))
    (hf : point_in_polygon x y poly = false) : ¬ containsPt m x y i := by
  rintro ⟨p, hp, hpip⟩
  rw [hc] at hp
  simp only [Option.some.injEq] at hp
  subst hp
  rw [hpip] at hf
  exact Bool.noConfusion hf

theorem findFrom_found (m : Map) (x y : Int) :
    ∀ (k i r : Nat), findFrom m x y i k = some (some r) →
      i ≤ r ∧ r < i + k ∧ containsPt m x y r ∧ ∀ j, i ≤ j → j < r → ¬ containsPt m x y j
  | 0, i, r, h => by simp [findFrom] at h
  | Nat.succ k, i, r, h => by
    cases hc : compute_sector_polygon m (i : Int) with
    | none => simp [findFrom, hc] at h
    | some o =>
      cases o with
      | none =>
        simp only [findFrom, hc] at h
        obtain ⟨h1, h2, h3, h4⟩ := findFrom_found m x y k (i + 1) r h
        refine ⟨by omega, by omega, h3, fun j hj1 hj2 => ?_⟩
        by_cases hji : j = i
        · subst hji
          exact not_containsPt_none m x y j hc
        · exact h4 j (by omega) hj2
      | some poly =>
        simp only [findFrom, hc] at h
        by_cases hemp : poly.isEmpty = true
        · rw [if_pos hemp] at h
          have hpoly : poly = [] := List.isEmpty_iff.mp hemp
          obtain ⟨h1, h2, h3, h4⟩ := findFrom_found m x y k (i + 1) r h
          refine ⟨by omega, by omega, h3, fun j hj1 hj2 => ?_⟩
          by_cases hji : j = i
          · subst hji
            exact not_containsPt_false m x y j poly hc (by rw [hpoly]; rfl)
          · exact h4 j (by omega) hj2
        · rw [if_neg hemp] at h
          by_cases hpip : point_in_polygon x y poly = true
          · rw [if_pos hpip] at h
            simp only [Option.some.injEq] at h
            subst h
            exact ⟨Nat.le_refl _, by omega, ⟨poly, hc, hpip⟩,
              fun j hj1 hj2 => absurd (Nat.lt_of_le_of_lt hj1 hj2) (Nat.lt_irrefl _)⟩
          · rw [if_neg hpip] at h
            have hfalse : point_in_polygon x y poly = false :=
              Bool.eq_false_iff.mpr hpip
            obtain ⟨h1, h2, h3, h4⟩ := findFrom_found m x y k (i + 1) r h
            refine ⟨by omega, by omega, h3, fun j hj1 hj2 => ?_⟩
            by_cases hji : j = i
            · subst hji
              exact not_containsPt_false m x y j poly hc hfalse
            · exact h4 j (by omega) hj2

theorem findFrom_none (m : Map) (x y : Int) :
    ∀ (k i : Nat), findFrom m x y i k = some none →
      ∀ j, i ≤ j → j < i + k → ¬ containsPt m x y j
  | 0, i, _, j, hj1, hj2 => absurd hj2 (by omega)
  | Nat.succ k, i, h, j, hj1, hj2 => by
    cases hc : compute_sector_polygon m (i : Int) with
    | none => simp [findFrom, hc] at h
    | some o =>
      cases o with
      | none =>
        simp only [findFrom, hc] at h
        by_cases hji : j = i
        · subst hji
          exact not_containsPt_none m x y j hc
        · exact findFrom_none m x y k (i + 1) h j (by omega) (by omega)
      | some poly =>
        simp only [findFrom, hc] at h
        by_cases hemp : poly.isEmpty = true
        · rw [if_pos hemp] at h
          have hpoly : poly = [] := List.isEmpty_iff.mp hemp
          by_cases hji : j = i
          · subst hji
            exact not_containsPt_false m x y j poly hc (by rw [hpoly]; rfl)
          · exact findFrom_none m x y k (i + 1) h j (by omega) (by omega)
        · rw [if_neg hemp] at h
          by_cases hpip : point_in_polygon x y poly = true
          · rw [if_pos hpip] at h
            simp at h
          · rw [if_neg hpip] at h
            have hfalse : point_in_polygon x y poly = false :=
              Bool.eq_false_iff.mpr hpip
            by_cases hji : j = i
            · subst hji
              exact not_containsPt_false m x y j poly hc hfalse
            · exact findFrom_none m x y k (i + 1) h j (by omega) (by omega)

theorem findFrom_complete (m : Map) (x y : Int) :
    ∀ (k i : Nat),
      (∀ j, i ≤ j → j < i + k → (compute_sector_polygon m (j : Int)).isSome = true) →
      (∀ j, i ≤ j → j < i + k → ¬ containsPt m x y j) →
      findFrom m x y i k = some none
  | 0, i, _, _ => by simp [findFrom]
  | Nat.succ k, i, hok, hnc => by
    cases hc : compute_sector_polygon m (i : Int) with
    | none =>
      have := hok i (Nat.le_refl _) (by omega)
      rw [hc] at this
      exact Bool.noConfusion this
    | some o =>
      cases o with
      | none =>
        simp only [findFrom, hc]
        exact findFrom_complete m x y k (i + 1)
          (fun j h1 h2 => hok j (by omega) (by omega))
          (fun j h1 h2 => hnc j (by omega) (by omega))
      | some poly =>
        simp only [findFrom, hc]
        by_cases hemp : poly.isEmpty = true
        · rw [if_pos hemp]
          exact findFrom_complete m x y k (i + 1)
            (fun j h1 h2 => hok j (by omega) (by omega))
            (fun j h1 h2 => hnc j (by omega) (by omega))
        · rw [if_neg hemp]
          have hfalse : ¬ point_in_polygon x y poly = true := by
            intro htrue
            exact hnc i (Nat.le_refl _) (by omega) ⟨poly, hc, htrue⟩
          rw [if_neg hfalse]
          exact findFrom_complete m x y k (i + 1)
            (fun j h1 h2 => hok j (by omega) (by omega))
            (fun j h1 h2 => hnc j (by omega) (by omega))

/-- C1: for every Map whose sector scan raises no IndexError,
find_sector_for_point returns the first (smallest) sector index whose
built polygon contains the query point: a returned index is in range,
its sector contains the point, and no smaller sector does; and the
not-found result (inner none, not an error) occurs exactly when no
sector's polygon contains the point.  Sectors with no polygon are
skipped by the containment predicate itself. -/
theorem locate_point_first_containing_sector (m : Map) (x y : Int)
    (hok : ∀ j, j < m.sectors.length → (compute_sector_polygon m (j : Int)).isSome = true) :
    (∀ r, find_sector_for_point m x y = some (some r) →
        r < m.sectors.length ∧ containsPt m x y r ∧ ∀ j, j < r → ¬ containsPt m x y j)
      ∧ (find_sector_for_point m x y = some none ↔
          ∀ j, j < m.sectors.length → ¬ containsPt m x y j) := by
  constructor
  · intro r hr
    rw [find_sector_for_point] at hr
    obtain ⟨h1, h2, h3, h4⟩ := findFrom_found m x y m.sectors.length 0 r hr
    exact ⟨by omega, h3, fun j hj => h4 j (Nat.zero_le j) hj⟩
  · constructor
    · intro h j hj
      rw [find_sector_for_point] at h
      exact findFrom_none m x y m.sectors.length 0 h j (Nat.zero_le j) (by omega)
    · intro h
      rw [find_sector_for_point]
      exact findFrom_complete m x y m.sectors.length 0
        (fun j h1 h2 => hok j (by omega)) (fun j h1 h2 => h j (by omega))

theorem locate_point_first_containing_sector_witness :
    0 < demoMap.sectors.length ∧ containsPt demoMap 32 32 0 :=
  ⟨((locate_point_first_containing_sector demoMap 32 32 (by decide)).1 0
      (by with_unfolding_all decide)).1,
   ((locate_point_first_containing_sector demoMap 32 32 (by decide)).1 0
      (by with_unfolding_all decide)).2.1⟩

end Doom
